import Mathlib

/-!
# Verification of the `my-cli` GitHub user lookup tool

Shallow embedding of the Go sources of `chmenegatti/my-cli`:

* `cmd/root.go` — the cobra root command: reads the `--user`/`-u` string
  flag, exits with code 1 when it is empty, otherwise calls
  `github.GetUser`.  `initConfig` calls `viper.AutomaticEnv()`, but the
  flag value is read with `cmd.Flags().GetString("user")`, which never
  consults viper.
* `github/api.go` — `GetUser`: builds the URL with `fmt.Sprintf`,
  performs `http.Get`, decodes the body with
  `json.NewDecoder(resp.Body).Decode(&gitHubUser)` and prints four lines
  with `fmt.Printf`.

The network is modelled as a stub function from the request URL to an
`HttpResult`; the JSON decoder is modelled at the byte level
(`decodeBody`), mirroring the behaviour of Go's `encoding/json`
`Decoder.Decode` on the subset of JSON this program can meet: strings
with simple escapes (`\u` escapes and control-character rejection are
not modelled), integer numbers (fraction/exponent syntax and the
leading-zero and int64-overflow checks are not modelled), `null`,
booleans, arrays and objects.  Error messages are modelled abstractly:
the Go error strings are not reproduced verbatim.
-/

/-! ## JSON values (the result of scanning one value from the stream) -/

inductive Json where
  | null : Json
  | bool (b : Bool) : Json
  | num (n : Int) : Json
  | str (s : String) : Json
  | arr (elems : List Json) : Json
  | obj (fields : List (String × Json)) : Json

/-! ## The `GitHubUser` struct of `github/api.go`

```go
type GitHubUser struct {
    Login     string `json:"login"`
    Name      string `json:"name"`
    Followers int    `json:"followers"`
    Following int    `json:"following"`
}
```
Go `int` is modelled as an unbounded `Int` (the decoder's int64
overflow check is therefore not modelled). -/

structure GitHubUser where
  login : String := ""
  name : String := ""
  followers : Int := 0
  following : Int := 0
  deriving Repr, DecidableEq

/-- The zero value of `GitHubUser`, i.e. `var gitHubUser GitHubUser`. -/
def GitHubUser.zero : GitHubUser := {}

/-! ## `fmt.Sprintf` / `fmt.Printf` on the two format strings the
program uses (`%s` and `%d` directives only). -/

inductive FmtArg where
  | s (v : String) : FmtArg
  | d (n : Int) : FmtArg
  deriving Repr, DecidableEq

/-- Core of the `fmt` verb interpreter: walks the format string,
substituting `%s` with the next string argument and `%d` with the
decimal rendering of the next integer argument.  Only the cases
exercised by the program's two format strings are given meaning; a
directive with no matching argument is emitted literally (the program
never does this). -/
def fmtRun : List Char → List FmtArg → List Char
  | [], _ => []
  | '%' :: 's' :: rest, .s v :: args => v.data ++ fmtRun rest args
  | '%' :: 'd' :: rest, .d n :: args => (toString n).data ++ fmtRun rest args
  | c :: rest, args => c :: fmtRun rest args

/-- `fmt.Sprintf`/`fmt.Printf` restricted to `%s`/`%d` verbs. -/
def sprintf (fmt : String) (args : List FmtArg) : String :=
  String.mk (fmtRun fmt.data args)

/-! ## Decoding a scanned JSON value into `GitHubUser`

Mirrors `encoding/json` unmarshalling of a value into a struct:
* `null` is a no-op (the struct keeps its current — zero — value);
* a non-object, non-null value is a type error;
* object members are processed in order; each key is matched against
  the struct's `json:` tags, "preferring an exact match but also
  accepting a case-insensitive match" (here: ASCII case folding;
  `strings.EqualFold`'s Unicode folding is not modelled); unmatched
  members are skipped; a matched member of the wrong type is an error,
  and a matched `null` leaves the field unchanged. -/

/-- ASCII lower-casing of one character. -/
def asciiLower (c : Char) : Char :=
  if 'A' ≤ c && c ≤ 'Z' then Char.ofNat (c.toNat + 32) else c

/-- ASCII case-insensitive key comparison (model of `strings.EqualFold`
as used by `encoding/json` field matching; the tags are lower-case, so
folding the incoming key suffices). -/
def keyMatches (k tag : String) : Bool :=
  String.mk (k.data.map asciiLower) = tag

/-- Assign one object member to the struct, as `encoding/json` does. -/
def assignField (u : GitHubUser) (k : String) (v : Json) : Except String GitHubUser :=
  if keyMatches k "login" then
    match v with
    | .str s => .ok { u with login := s }
    | .null => .ok u
    | _ => .error "cannot unmarshal value into field login of type string"
  else if keyMatches k "name" then
    match v with
    | .str s => .ok { u with name := s }
    | .null => .ok u
    | _ => .error "cannot unmarshal value into field name of type string"
  else if keyMatches k "followers" then
    match v with
    | .num n => .ok { u with followers := n }
    | .null => .ok u
    | _ => .error "cannot unmarshal value into field followers of type int"
  else if keyMatches k "following" then
    match v with
    | .num n => .ok { u with following := n }
    | .null => .ok u
    | _ => .error "cannot unmarshal value into field following of type int"
  else
    .ok u

/-- Process the members of an object in order, starting from `u`. -/
def decodeFields (u : GitHubUser) : List (String × Json) → Except String GitHubUser
  | [] => .ok u
  | (k, v) :: rest =>
    match assignField u k v with
    | .ok u' => decodeFields u' rest
    | .error e => .error e

/-- Unmarshal one JSON value into a fresh `GitHubUser` (the target of
`Decode(&gitHubUser)` starts at its zero value). -/
def decodeValue (v : Json) : Except String GitHubUser :=
  match v with
  | .null => .ok GitHubUser.zero
  | .obj fields => decodeFields GitHubUser.zero fields
  | _ => .error "cannot unmarshal value into Go value of type github.GitHubUser"

/-! ## Scanning one JSON value from the body stream

Model of `json.NewDecoder(resp.Body).Decode(...)`'s reading phase: it
scans exactly one JSON value from the front of the stream.  An object
or array is complete at its closing bracket and the decoder stops there
without examining later bytes; a primitive (`null`, boolean, number) or
a string at top level is only known to be complete when the scanner
sees the following byte (or end of input), and a non-whitespace byte
there is an "invalid character after top-level value" error. -/

/-- The whitespace bytes of the JSON grammar (and of Go's scanner). -/
def isJsonWs (c : Char) : Bool :=
  c = ' ' || c = '\t' || c = '\n' || c = '\r'

/-- Skip insignificant whitespace. -/
def skipWs (s : List Char) : List Char :=
  s.dropWhile isJsonWs

/-- Value of one JSON string escape character (after the backslash).
`\uXXXX` escapes are not modelled. -/
def escChar (c : Char) : Option Char :=
  if c = '"' then some '"'
  else if c = '\\' then some '\\'
  else if c = '/' then some '/'
  else if c = 'n' then some '\n'
  else if c = 't' then some '\t'
  else if c = 'r' then some '\r'
  else if c = 'b' then some (Char.ofNat 8)
  else if c = 'f' then some (Char.ofNat 12)
  else none

/-- Scan the contents of a string literal, starting just after the
opening quote; returns the decoded characters and the rest of the
stream after the closing quote. -/
def scanStr : List Char → Option (List Char × List Char)
  | [] => none
  | c :: rest =>
    if c = '"' then some ([], rest)
    else if c = '\\' then
      match rest with
      | [] => none
      | e :: rest' =>
        match escChar e with
        | some ec => (scanStr rest').map (fun p => (ec :: p.1, p.2))
        | none => none
    else (scanStr rest).map (fun p => (c :: p.1, p.2))

/-- Numeric value of a list of decimal digits. -/
def digitsToNat (ds : List Char) : Nat :=
  ds.foldl (fun a c => a * 10 + (c.toNat - '0'.toNat)) 0

/-- Scan a nonempty run of decimal digits. -/
def scanNat (s : List Char) : Option (Nat × List Char) :=
  if s.takeWhile Char.isDigit = [] then none
  else some (digitsToNat (s.takeWhile Char.isDigit), s.dropWhile Char.isDigit)

/-- Scan a JSON number (integer subset: optional minus sign and a digit
run; fraction/exponent parts and the leading-zero check of the full
grammar are not modelled — this program never meets them). -/
def scanNum (s : List Char) : Option (Int × List Char) :=
  if s.head? = some '-' then (scanNat s.tail).map (fun p => (-(p.1 : Int), p.2))
  else (scanNat s).map (fun p => ((p.1 : Int), p.2))

/-- Match the fixed tail of a literal (`ull`, `rue`, `alse`) at the
front of the stream, returning what follows it. -/
def dropLit : List Char → List Char → Option (List Char)
  | [], s => some s
  | _ :: _, [] => none
  | l :: ls, c :: cs => if c = l then dropLit ls cs else none

mutual

/-- Scan one JSON value from the stream (fuel-indexed; `decodeBody`
supplies fuel larger than the input length, which every chain of
recursive calls consumes faster than). -/
def scanVal : Nat → List Char → Option (Json × List Char)
  | 0, _ => none
  | fuel + 1, s =>
    match skipWs s with
    | [] => none
    | c :: rest =>
      if c = '{' then (scanObj fuel true rest).map (fun p => (Json.obj p.1, p.2))
      else if c = '[' then (scanArr fuel true rest).map (fun p => (Json.arr p.1, p.2))
      else if c = '"' then (scanStr rest).map (fun p => (Json.str (String.mk p.1), p.2))
      else if c = 'n' then (dropLit ['u', 'l', 'l'] rest).map (fun r => (Json.null, r))
      else if c = 't' then (dropLit ['r', 'u', 'e'] rest).map (fun r => (Json.bool true, r))
      else if c = 'f' then (dropLit ['a', 'l', 's', 'e'] rest).map (fun r => (Json.bool false, r))
      else if c = '-' || c.isDigit then (scanNum (c :: rest)).map (fun p => (Json.num p.1, p.2))
      else none

/-- Scan the members of an object, just after the `{` (when `first` is
true) or after a `,` (when it is false; a closing brace is then not
allowed, as in Go's scanner). -/
def scanObj : Nat → Bool → List Char → Option (List (String × Json) × List Char)
  | 0, _, _ => none
  | fuel + 1, first, s =>
    match skipWs s with
    | [] => none
    | c :: rest =>
      if c = '}' then (if first then some ([], rest) else none)
      else if c = '"' then
        match scanStr rest with
        | none => none
        | some (key, r1) =>
          match skipWs r1 with
          | ':' :: r2 =>
            match scanVal fuel r2 with
            | none => none
            | some (v, r3) =>
              match skipWs r3 with
              | ',' :: r4 =>
                (scanObj fuel false r4).map (fun p => ((String.mk key, v) :: p.1, p.2))
              | '}' :: r4 => some ([(String.mk key, v)], r4)
              | _ => none
          | _ => none
      else none

/-- Scan the elements of an array, just after the `[` (when `first` is
true) or after a `,`. -/
def scanArr : Nat → Bool → List Char → Option (List Json × List Char)
  | 0, _, _ => none
  | fuel + 1, first, s =>
    match skipWs s with
    | [] => none
    | c :: rest =>
      if c = ']' then (if first then some ([], rest) else none)
      else
        match scanVal fuel s with
        | none => none
        | some (v, r1) =>
          match skipWs r1 with
          | ',' :: r2 => (scanArr fuel false r2).map (fun p => (v :: p.1, p.2))
          | ']' :: r2 => some ([v], r2)
          | _ => none

end

/-- A value whose end the scanner recognises at its own closing
bracket: the decoder stops there and later bytes of the stream are
never examined (`scanEndObject`/`scanEndArray` in Go's decoder). -/
def selfDelim : Json → Bool
  | .obj _ => true
  | .arr _ => true
  | _ => false

/-- Model of `dec.Decode(&gitHubUser)` on a whole body: scan one value
off the stream; for a non-self-delimiting value the scanner also
consumes the following byte, erring when it is not whitespace
("invalid character after top-level value"); then unmarshal the value
into the struct. -/
def decodeBody (body : String) : Except String GitHubUser :=
  match scanVal (body.data.length + 1) body.data with
  | none => .error "unexpected end of JSON input"
  | some (v, rest) =>
    if selfDelim v then decodeValue v
    else
      match rest with
      | [] => decodeValue v
      | c :: _ =>
        if isJsonWs c then decodeValue v
        else .error "invalid character after top-level value"

/-! ## `github.GetUser`

```go
func GetUser(user string) {
    url := fmt.Sprintf("https://api.github.com/users/%s", user)
    resp, err := http.Get(url)
    if err != nil {
        fmt.Println("Erro ao buscar o usuário:", err)
        return
    }
    defer resp.Body.Close()
    var gitHubUser GitHubUser
    if err := json.NewDecoder(resp.Body).Decode(&gitHubUser); err != nil {
        fmt.Println("Erro ao decodificar resposta:", err)
        return
    }
    fmt.Printf("Usuário: %s\nNome: %s\nSeguidores: %d\nSeguindo: %d\n", ...)
}
```

`http.Get` is modelled as a stub function from the request URL to
either a transport error (carrying the text of `err`) or a response
carrying the body bytes.  The result records everything observable:
the bytes printed to standard output, whether a response was obtained,
and whether its body was closed (the `defer`). -/

/-- Outcome of the one `http.Get` call: `err != nil`, or a response. -/
inductive HttpResult where
  | transportError (msg : String) : HttpResult
  | response (body : String) : HttpResult
  deriving Repr, DecidableEq

/-- A stubbed network: what `http.Get` returns for each URL. -/
def HttpStub := String → HttpResult

/-- Observable effects of one `GetUser` call. -/
structure GetUserResult where
  stdout : String
  responseObtained : Bool
  bodyClosed : Bool
  deriving Repr, DecidableEq

/-- The URL built by `fmt.Sprintf("https://api.github.com/users/%s", user)`. -/
def buildURL (user : String) : String :=
  sprintf "https://api.github.com/users/%s" [.s user]

/-- The four-line success format of the final `fmt.Printf`. -/
def profileOutput (u : GitHubUser) : String :=
  sprintf "Usuário: %s\nNome: %s\nSeguidores: %d\nSeguindo: %d\n"
    [.s u.login, .s u.name, .d u.followers, .d u.following]

/-- `github.GetUser`, step for step.  `fmt.Println(a, err)` writes the
operands separated by a space and followed by a newline; the `defer
resp.Body.Close()` runs on every return path reached after a response
was obtained. -/
def GetUser (stub : HttpStub) (user : String) : GetUserResult :=
  let url := buildURL user
  match stub url with
  | .transportError e =>
    { stdout := "Erro ao buscar o usuário: " ++ e ++ "\n"
      responseObtained := false, bodyClosed := false }
  | .response body =>
    match decodeBody body with
    | .error e =>
      { stdout := "Erro ao decodificar resposta: " ++ e ++ "\n"
        responseObtained := true, bodyClosed := true }
    | .ok u =>
      { stdout := profileOutput u
        responseObtained := true, bodyClosed := true }

/-! ## The CLI entry (`cmd/root.go`)

```go
Run: func(cmd *cobra.Command, args []string) {
    user, _ := cmd.Flags().GetString("user")
    if user == "" {
        fmt.Println("É necessário informar um usuário com -u ou --user")
        os.Exit(1)
    }
    github.GetUser(user)
},
```

The flag is registered with `StringP("user", "u", "", ...)`, so
`GetString` yields the command-line value when the flag was supplied
and the default `""` otherwise.  `initConfig` runs
`viper.AutomaticEnv()`, but nothing in the program reads through
viper, so the process environment (modelled as a function from
variable names to optional values) cannot influence the flag value. -/

/-- The process environment. -/
def EnvMap := String → Option String

/-- `cmd.Flags().GetString("user")`: the command-line value if the
flag was supplied, else the registered default `""`.  (pflag does not
consult viper or the environment.) -/
def getStringFlag (flagUser : Option String) : String :=
  flagUser.getD ""

/-- Observable effects of one execution of the root command's `Run`. -/
structure RunResult where
  stdout : String
  stderr : String
  /-- `some c`: the process was terminated by `os.Exit(c)`;
  `none`: `Run` returned normally (the process then exits 0). -/
  exitCode : Option Nat
  /-- The argument `github.GetUser` was called with, if it was called. -/
  getUserArg : Option String
  getUserStdout : String
  deriving Repr, DecidableEq

set_option linter.unusedVariables false in
/-- The root command's `Run` function.  `flagUser` is the `--user`/`-u`
value from the command line (`none` when the flag was absent), `env`
the process environment, `stub` the network.  The environment is a
parameter of the execution but — faithfully to the code — no
right-hand side mentions it. -/
def runRoot (flagUser : Option String) (env : EnvMap) (stub : HttpStub) : RunResult :=
  let user := getStringFlag flagUser
  if user = "" then
    { stdout := "É necessário informar um usuário com -u ou --user\n"
      stderr := ""
      exitCode := some 1
      getUserArg := none
      getUserStdout := "" }
  else
    let r := GetUser stub user
    { stdout := r.stdout
      stderr := ""
      exitCode := none
      getUserArg := some user
      getUserStdout := r.stdout }

/-! ## Definitions written from the spec's words (for refinement
claims only; everything above is translated from the Go source). -/

/-- Modelled from the spec: percent-encoding of one character for use
in a URL path segment (RFC 3986 `pchar` minus the sub-delims kept by
Go's `url.PathEscape`; spaces, slashes, `?` and `#` are all encoded). -/
def specPathEncodeChar (c : Char) : String :=
  if c.isAlphanum || c = '-' || c = '_' || c = '.' || c = '~' then
    String.mk [c]
  else
    let n := c.toNat
    let hex (k : Nat) : Char := if k < 10 then Char.ofNat ('0'.toNat + k)
      else Char.ofNat ('A'.toNat + (k - 10))
    String.mk ['%', hex (n / 16 % 16), hex (n % 16)]

/-- Modelled from the spec: "fixed base `https://api.github.com/users/`
followed by the path-encoded identifier". -/
def specEncodedURL (user : String) : String :=
  "https://api.github.com/users/" ++ String.join (user.data.map specPathEncodeChar)

/-! ## Helper lemmas -/

lemma skipWs_ne_nil {s : List Char} {c : Char} {r : List Char}
    (h : skipWs s = c :: r) : s ≠ [] := by
  intro e
  rw [e] at h
  simp [skipWs] at h

lemma skipWs_append (t : List Char) {s : List Char} {c : Char} {r : List Char}
    (h : skipWs s = c :: r) : skipWs (s ++ t) = c :: (r ++ t) := by
  unfold skipWs at h ⊢
  rw [List.dropWhile_append, h]
  simp

lemma dropLit_append (t : List Char) : ∀ {lit s r : List Char},
    dropLit lit s = some r → dropLit lit (s ++ t) = some (r ++ t)
  | [], s, r, h => by
    simp [dropLit] at h
    simp [dropLit, h]
  | _ :: _, [], _, h => by
    simp [dropLit] at h
  | l :: ls, c :: cs, r, h => by
    simp only [List.cons_append, dropLit] at h ⊢
    split at h
    next hcl => rw [if_pos hcl]; exact dropLit_append t h
    next => exact absurd h (by simp)

lemma dropWhile_append_of_ne_nil {p : Char → Bool} {s : List Char} (t : List Char)
    (h : s.dropWhile p ≠ []) :
    (s ++ t).dropWhile p = s.dropWhile p ++ t ∧
    (s ++ t).takeWhile p = s.takeWhile p := by
  constructor
  · rw [List.dropWhile_append]
    simp [List.isEmpty_iff, h]
  · rw [List.takeWhile_append]
    have hlen : (s.takeWhile p).length + (s.dropWhile p).length = s.length := by
      rw [← List.length_append, List.takeWhile_append_dropWhile]
    have hnz : (s.dropWhile p).length ≠ 0 := by
      simpa [List.length_eq_zero] using h
    have hlt : (s.takeWhile p).length ≠ s.length := by omega
    simp [hlt]

lemma scanNat_append (t : List Char) {s : List Char} {n : Nat} {r : List Char}
    (h : scanNat s = some (n, r)) (hr : r ≠ []) :
    scanNat (s ++ t) = some (n, r ++ t) := by
  unfold scanNat at h ⊢
  split at h
  · exact absurd h (by simp)
  next hds =>
    rw [Option.some.injEq, Prod.mk.injEq] at h
    have hdrop : s.dropWhile Char.isDigit ≠ [] := fun e => hr (h.2 ▸ e)
    obtain ⟨hd, ht⟩ := dropWhile_append_of_ne_nil t hdrop
    rw [ht, hd, h.2, if_neg hds, h.1]

lemma scanNum_append (t : List Char) {s : List Char} {n : Int} {r : List Char}
    (h : scanNum s = some (n, r)) (hr : r ≠ []) :
    scanNum (s ++ t) = some (n, r ++ t) := by
  have hs : s ≠ [] := by
    intro e
    subst e
    simp [scanNum, scanNat] at h
  obtain ⟨c, cs, rfl⟩ := List.exists_cons_of_ne_nil hs
  unfold scanNum at h ⊢
  rw [List.cons_append] at *
  simp only [List.head?_cons, List.tail_cons] at h ⊢
  split at h
  next hc =>
    rw [if_pos hc]
    rw [Option.map_eq_some'] at h
    obtain ⟨⟨m, r'⟩, hm, he⟩ := h
    simp only [Prod.mk.injEq] at he
    have hr' : r' ≠ [] := fun e => hr (he.2 ▸ e)
    rw [Option.map_eq_some']
    exact ⟨(m, r' ++ t), scanNat_append t hm hr', by simp [← he.1, he.2]⟩
  next hc =>
    rw [if_neg hc]
    rw [Option.map_eq_some'] at h
    obtain ⟨⟨m, r'⟩, hm, he⟩ := h
    simp only [Prod.mk.injEq] at he
    have hr' : r' ≠ [] := fun e => hr (he.2 ▸ e)
    rw [Option.map_eq_some']
    exact ⟨(m, r' ++ t), scanNat_append t hm hr', by simp [← he.1, he.2]⟩

lemma scanStr_append (t : List Char) : ∀ {s cs r : List Char},
    scanStr s = some (cs, r) → scanStr (s ++ t) = some (cs, r ++ t) := by
  intro s
  induction s using scanStr.induct with
  | case1 =>
    intro cs r h
    rw [scanStr.eq_def] at h
    simp at h
  | case2 rest =>
    intro cs r h
    rw [scanStr.eq_def] at h
    simp at h
    obtain ⟨h1, h2⟩ := h
    subst h1
    subst h2
    rw [List.cons_append, scanStr.eq_def]
    simp
  | case3 hb =>
    intro cs r h
    rw [scanStr.eq_def] at h
    simp at h
  | case4 e rest' ec hec hb ih =>
    intro cs r h
    rw [scanStr.eq_def] at h
    simp only [hec] at h
    rcases hs : scanStr rest' with _ | ⟨cs', r'⟩ <;> rw [hs] at h <;> simp at h
    obtain ⟨h1, h2⟩ := h
    subst h1
    subst h2
    rw [List.cons_append, List.cons_append, scanStr.eq_def]
    simp [hec, ih hs]
  | case5 e rest' hec hb =>
    intro cs r h
    rw [scanStr.eq_def] at h
    simp [hec] at h
  | case6 e rest' hq hb ih =>
    intro cs r h
    rw [scanStr.eq_def] at h
    simp only [hq, hb, if_false, if_neg] at h
    rcases hs : scanStr rest' with _ | ⟨cs', r'⟩ <;> rw [hs] at h <;> simp at h
    obtain ⟨h1, h2⟩ := h
    subst h1
    subst h2
    rw [List.cons_append, scanStr.eq_def]
    simp [hq, hb, ih hs]

lemma scanVal_succ_nil (fuel : Nat) (s : List Char) (h : skipWs s = []) :
    scanVal (fuel + 1) s = none := by
  rw [scanVal.eq_def]
  simp [h]

lemma scanVal_succ_cons (fuel : Nat) (s : List Char) (c : Char) (rest : List Char)
    (h : skipWs s = c :: rest) :
    scanVal (fuel + 1) s =
      (if c = '{' then (scanObj fuel true rest).map (fun p => (Json.obj p.1, p.2))
      else if c = '[' then (scanArr fuel true rest).map (fun p => (Json.arr p.1, p.2))
      else if c = '"' then (scanStr rest).map (fun p => (Json.str (String.mk p.1), p.2))
      else if c = 'n' then (dropLit ['u', 'l', 'l'] rest).map (fun r => (Json.null, r))
      else if c = 't' then (dropLit ['r', 'u', 'e'] rest).map (fun r => (Json.bool true, r))
      else if c = 'f' then (dropLit ['a', 'l', 's', 'e'] rest).map (fun r => (Json.bool false, r))
      else if c = '-' || c.isDigit then (scanNum (c :: rest)).map (fun p => (Json.num p.1, p.2))
      else none) := by
  rw [scanVal.eq_def]
  simp [h]

lemma scanObj_succ_nil (fuel : Nat) (first : Bool) (s : List Char) (h : skipWs s = []) :
    scanObj (fuel + 1) first s = none := by
  rw [scanObj.eq_def]
  simp [h]

lemma scanObj_succ_cons (fuel : Nat) (first : Bool) (s : List Char) (c : Char)
    (rest : List Char) (h : skipWs s = c :: rest) :
    scanObj (fuel + 1) first s =
      (if c = '}' then (if first then some ([], rest) else none)
      else if c = '"' then
        match scanStr rest with
        | none => none
        | some (key, r1) =>
          match skipWs r1 with
          | ':' :: r2 =>
            match scanVal fuel r2 with
            | none => none
            | some (v, r3) =>
              match skipWs r3 with
              | ',' :: r4 =>
                (scanObj fuel false r4).map (fun p => ((String.mk key, v) :: p.1, p.2))
              | '}' :: r4 => some ([(String.mk key, v)], r4)
              | _ => none
          | _ => none
      else none) := by
  rw [scanObj.eq_def]
  simp [h]

lemma scanArr_succ_nil (fuel : Nat) (first : Bool) (s : List Char) (h : skipWs s = []) :
    scanArr (fuel + 1) first s = none := by
  rw [scanArr.eq_def]
  simp [h]

lemma scanArr_succ_cons (fuel : Nat) (first : Bool) (s : List Char) (c : Char)
    (rest : List Char) (h : skipWs s = c :: rest) :
    scanArr (fuel + 1) first s =
      (if c = ']' then (if first then some ([], rest) else none)
      else
        match scanVal fuel s with
        | none => none
        | some (v, r1) =>
          match skipWs r1 with
          | ',' :: r2 => (scanArr fuel false r2).map (fun p => (v :: p.1, p.2))
          | ']' :: r2 => some ([v], r2)
          | _ => none) := by
  rw [scanArr.eq_def]
  simp [h]

lemma scanObj_step_member_comma (fuel : Nat) (first : Bool) (s rest key r1 r2 : List Char)
    (v : Json) (r3 r4 : List Char)
    (hws : skipWs s = '"' :: rest)
    (hstr : scanStr rest = some (key, r1))
    (hcolon : skipWs r1 = ':' :: r2)
    (hval : scanVal fuel r2 = some (v, r3))
    (hc : skipWs r3 = ',' :: r4) :
    scanObj (fuel + 1) first s =
      (scanObj fuel false r4).map (fun p => ((String.mk key, v) :: p.1, p.2)) := by
  rw [scanObj_succ_cons fuel first s '"' rest hws]
  simp [hstr, hcolon, hval, hc]

lemma scanObj_step_member_close (fuel : Nat) (first : Bool) (s rest key r1 r2 : List Char)
    (v : Json) (r3 r4 : List Char)
    (hws : skipWs s = '"' :: rest)
    (hstr : scanStr rest = some (key, r1))
    (hcolon : skipWs r1 = ':' :: r2)
    (hval : scanVal fuel r2 = some (v, r3))
    (hc : skipWs r3 = '}' :: r4) :
    scanObj (fuel + 1) first s = some ([(String.mk key, v)], r4) := by
  rw [scanObj_succ_cons fuel first s '"' rest hws]
  simp [hstr, hcolon, hval, hc]

lemma scanArr_step_elem_comma (fuel : Nat) (first : Bool) (s : List Char) (c : Char)
    (rest : List Char) (v : Json) (r1 r2 : List Char)
    (hws : skipWs s = c :: rest) (hc : ¬c = ']')
    (hval : scanVal fuel s = some (v, r1))
    (hcm : skipWs r1 = ',' :: r2) :
    scanArr (fuel + 1) first s = (scanArr fuel false r2).map (fun p => (v :: p.1, p.2)) := by
  rw [scanArr_succ_cons fuel first s c rest hws]
  rw [if_neg hc]
  simp [hval, hcm]

lemma scanArr_step_elem_close (fuel : Nat) (first : Bool) (s : List Char) (c : Char)
    (rest : List Char) (v : Json) (r1 r2 : List Char)
    (hws : skipWs s = c :: rest) (hc : ¬c = ']')
    (hval : scanVal fuel s = some (v, r1))
    (hcl : skipWs r1 = ']' :: r2) :
    scanArr (fuel + 1) first s = some ([v], r2) := by
  rw [scanArr_succ_cons fuel first s c rest hws]
  rw [if_neg hc]
  simp [hval, hcl]

/-- Joint stability lemma for the scanner: a successful scan is
preserved when the fuel grows and when bytes are appended after the
scanned value, provided the value is self-delimiting or the scan
already stopped at a byte of the input (a number scan that stopped
only at end of input can absorb appended digits, which is why the
hypothesis is needed). -/
lemma scan_append_mono : ∀ fuel fuel' : Nat, fuel ≤ fuel' →
    (∀ s t v r, scanVal fuel s = some (v, r) → (selfDelim v = true ∨ r ≠ []) →
        scanVal fuel' (s ++ t) = some (v, r ++ t)) ∧
    (∀ first s t p r, scanObj fuel first s = some (p, r) →
        scanObj fuel' first (s ++ t) = some (p, r ++ t)) ∧
    (∀ first s t p r, scanArr fuel first s = some (p, r) →
        scanArr fuel' first (s ++ t) = some (p, r ++ t)) := by
  intro fuel
  induction fuel with
  | zero =>
    intro fuel' _
    refine ⟨?_, ?_, ?_⟩
    · intro s t v r h hc
      rw [scanVal.eq_def] at h
      simp at h
    · intro first s t p r h
      rw [scanObj.eq_def] at h
      simp at h
    · intro first s t p r h
      rw [scanArr.eq_def] at h
      simp at h
  | succ fuel ih =>
    intro fuel' hle
    obtain ⟨f', rfl⟩ : ∃ f', fuel' = f' + 1 := ⟨fuel' - 1, by omega⟩
    have hff : fuel ≤ f' := by omega
    obtain ⟨ihv, iho, iha⟩ := ih f' hff
    refine ⟨?_, ?_, ?_⟩
    · intro s t v r h hcond
      rcases hws : skipWs s with _ | ⟨c, rest⟩
      · rw [scanVal_succ_nil fuel s hws] at h
        exact absurd h (by simp)
      · rw [scanVal_succ_cons fuel s c rest hws] at h
        rw [scanVal_succ_cons f' (s ++ t) c (rest ++ t) (skipWs_append t hws)]
        by_cases h1 : c = '{'
        · subst h1
          rw [if_pos (rfl : ('{' : Char) = '{')] at h ⊢
          rw [Option.map_eq_some'] at h
          obtain ⟨⟨fs, r0⟩, hobj, he⟩ := h
          simp only [Prod.mk.injEq] at he
          rw [Option.map_eq_some']
          exact ⟨(fs, r0 ++ t), iho true rest t fs r0 hobj, by simp [← he.1, he.2]⟩
        · rw [if_neg h1] at h ⊢
          by_cases h2 : c = '['
          · subst h2
            rw [if_pos (rfl : ('[' : Char) = '[')] at h ⊢
            rw [Option.map_eq_some'] at h
            obtain ⟨⟨es, r0⟩, harr, he⟩ := h
            simp only [Prod.mk.injEq] at he
            rw [Option.map_eq_some']
            exact ⟨(es, r0 ++ t), iha true rest t es r0 harr, by simp [← he.1, he.2]⟩
          · rw [if_neg h2] at h ⊢
            by_cases h3 : c = '"'
            · subst h3
              rw [if_pos (rfl : ('"' : Char) = '"')] at h ⊢
              rw [Option.map_eq_some'] at h
              obtain ⟨⟨cs, r0⟩, hstr, he⟩ := h
              simp only [Prod.mk.injEq] at he
              rw [Option.map_eq_some']
              exact ⟨(cs, r0 ++ t), scanStr_append t hstr, by simp [← he.1, he.2]⟩
            · rw [if_neg h3] at h ⊢
              by_cases h4 : c = 'n'
              · subst h4
                rw [if_pos (rfl : ('n' : Char) = 'n')] at h ⊢
                rw [Option.map_eq_some'] at h
                obtain ⟨r0, hlit, he⟩ := h
                rw [Option.map_eq_some']
                exact ⟨r0 ++ t, dropLit_append t hlit, by
                  simp only [Prod.mk.injEq] at he
                  simp [← he.1, he.2]⟩
              · rw [if_neg h4] at h ⊢
                by_cases h5 : c = 't'
                · subst h5
                  rw [if_pos (rfl : ('t' : Char) = 't')] at h ⊢
                  rw [Option.map_eq_some'] at h
                  obtain ⟨r0, hlit, he⟩ := h
                  rw [Option.map_eq_some']
                  exact ⟨r0 ++ t, dropLit_append t hlit, by
                    simp only [Prod.mk.injEq] at he
                    simp [← he.1, he.2]⟩
                · rw [if_neg h5] at h ⊢
                  by_cases h6 : c = 'f'
                  · subst h6
                    rw [if_pos (rfl : ('f' : Char) = 'f')] at h ⊢
                    rw [Option.map_eq_some'] at h
                    obtain ⟨r0, hlit, he⟩ := h
                    rw [Option.map_eq_some']
                    exact ⟨r0 ++ t, dropLit_append t hlit, by
                      simp only [Prod.mk.injEq] at he
                      simp [← he.1, he.2]⟩
                  · rw [if_neg h6] at h ⊢
                    by_cases h7 : (decide (c = '-') || c.isDigit) = true
                    · rw [if_pos h7] at h ⊢
                      rw [Option.map_eq_some'] at h
                      obtain ⟨⟨m, r0⟩, hnum, he⟩ := h
                      simp only [Prod.mk.injEq] at he
                      have hr0 : r0 ≠ [] := by
                        intro e
                        rcases hcond with hsd | hne
                        · rw [← he.1] at hsd
                          simp [selfDelim] at hsd
                        · have : r0 = r := he.2
                          exact hne (this ▸ e)
                      rw [Option.map_eq_some']
                      have hnum2 : scanNum ((c :: rest) ++ t) = some (m, r0 ++ t) :=
                        scanNum_append t hnum hr0
                      rw [List.cons_append] at hnum2
                      exact ⟨(m, r0 ++ t), hnum2, by simp [← he.1, he.2]⟩
                    · rw [if_neg h7] at h
                      exact absurd h (by simp)
    · intro first s t p r h
      rcases hws : skipWs s with _ | ⟨c, rest⟩
      · rw [scanObj_succ_nil fuel first s hws] at h
        exact absurd h (by simp)
      · rw [scanObj_succ_cons fuel first s c rest hws] at h
        by_cases h1 : c = '}'
        · subst h1
          rw [if_pos (rfl : ('}' : Char) = '}')] at h
          rw [scanObj_succ_cons f' first (s ++ t) '}' (rest ++ t) (skipWs_append t hws)]
          rw [if_pos (rfl : ('}' : Char) = '}')]
          cases first with
          | false => simp at h
          | true =>
            simp only [if_true, Option.some.injEq, Prod.mk.injEq] at h
            obtain ⟨hp, hr⟩ := h
            subst hp
            subst hr
            rfl
        · rw [if_neg h1] at h
          by_cases h2 : c = '"'
          · subst h2
            rw [if_pos (rfl : ('"' : Char) = '"')] at h
            split at h
            next hstr =>
              exact absurd h (by simp)
            next key r1 hstr =>
              split at h
              next r2 hcolon =>
                split at h
                next hval =>
                  exact absurd h (by simp)
                next v r3 hval =>
                  split at h
                  next r4 hc4 =>
                    rw [Option.map_eq_some'] at h
                    obtain ⟨⟨p0, r0⟩, hrec, he⟩ := h
                    simp only [Prod.mk.injEq] at he
                    have hr3 : r3 ≠ [] := skipWs_ne_nil hc4
                    rw [scanObj_step_member_comma f' first (s ++ t) (rest ++ t) key
                      (r1 ++ t) (r2 ++ t) v (r3 ++ t) (r4 ++ t)
                      (skipWs_append t hws) (scanStr_append t hstr)
                      (skipWs_append t hcolon) (ihv r2 t v r3 hval (Or.inr hr3))
                      (skipWs_append t hc4)]
                    rw [Option.map_eq_some']
                    exact ⟨(p0, r0 ++ t), iho false r4 t p0 r0 hrec, by simp [← he.1, he.2]⟩
                  next r4 hc4 =>
                    simp only [Option.some.injEq, Prod.mk.injEq] at h
                    obtain ⟨hp, hr⟩ := h
                    subst hp
                    subst hr
                    have hr3 : r3 ≠ [] := skipWs_ne_nil hc4
                    rw [scanObj_step_member_close f' first (s ++ t) (rest ++ t) key
                      (r1 ++ t) (r2 ++ t) v (r3 ++ t) (r4 ++ t)
                      (skipWs_append t hws) (scanStr_append t hstr)
                      (skipWs_append t hcolon) (ihv r2 t v r3 hval (Or.inr hr3))
                      (skipWs_append t hc4)]
                  next hc4a hc4b =>
                    exact absurd h (by simp)
              next hcolon =>
                exact absurd h (by simp)
          · rw [if_neg h2] at h
            exact absurd h (by simp)
    · intro first s t p r h
      rcases hws : skipWs s with _ | ⟨c, rest⟩
      · rw [scanArr_succ_nil fuel first s hws] at h
        exact absurd h (by simp)
      · rw [scanArr_succ_cons fuel first s c rest hws] at h
        by_cases h1 : c = ']'
        · subst h1
          rw [if_pos (rfl : (']' : Char) = ']')] at h
          rw [scanArr_succ_cons f' first (s ++ t) ']' (rest ++ t) (skipWs_append t hws)]
          rw [if_pos (rfl : (']' : Char) = ']')]
          cases first with
          | false => simp at h
          | true =>
            simp only [if_true, Option.some.injEq, Prod.mk.injEq] at h
            obtain ⟨hp, hr⟩ := h
            subst hp
            subst hr
            rfl
        · rw [if_neg h1] at h
          split at h
          next hval => exact absurd h (by simp)
          next v r1 hval =>
            split at h
            next r2 hcm =>
              rw [Option.map_eq_some'] at h
              obtain ⟨⟨p0, r0⟩, hrec, he⟩ := h
              simp only [Prod.mk.injEq] at he
              have hr1 : r1 ≠ [] := skipWs_ne_nil hcm
              rw [scanArr_step_elem_comma f' first (s ++ t) c (rest ++ t) v (r1 ++ t) (r2 ++ t)
                (skipWs_append t hws) h1 (ihv s t v r1 hval (Or.inr hr1)) (skipWs_append t hcm)]
              rw [Option.map_eq_some']
              exact ⟨(p0, r0 ++ t), iha false r2 t p0 r0 hrec, by simp [← he.1, he.2]⟩
            next r2 hcl =>
              simp only [Option.some.injEq, Prod.mk.injEq] at h
              obtain ⟨hp, hr⟩ := h
              subst hp
              subst hr
              have hr1 : r1 ≠ [] := skipWs_ne_nil hcl
              rw [scanArr_step_elem_close f' first (s ++ t) c (rest ++ t) v (r1 ++ t) (r2 ++ t)
                (skipWs_append t hws) h1 (ihv s t v r1 hval (Or.inr hr1)) (skipWs_append t hcl)]
            next hc4a hc4b =>
              exact absurd h (by simp)

lemma fmtRun_s (rest : List Char) (v : String) (args : List FmtArg) :
    fmtRun ('%' :: 's' :: rest) (.s v :: args) = v.data ++ fmtRun rest args := rfl

lemma fmtRun_d (rest : List Char) (n : Int) (args : List FmtArg) :
    fmtRun ('%' :: 'd' :: rest) (.d n :: args) = (toString n).data ++ fmtRun rest args := rfl

lemma fmtRun_cons {c : Char} (rest : List Char) (args : List FmtArg) (h : c ≠ '%') :
    fmtRun (c :: rest) args = c :: fmtRun rest args := by
  rw [fmtRun.eq_def]
  split <;> simp_all

lemma fmtRun_lit (pre : List Char) (fmt : List Char) (args : List FmtArg) (h : '%' ∉ pre) :
    fmtRun (pre ++ fmt) args = pre ++ fmtRun fmt args := by
  induction pre with
  | nil => rfl
  | cons c cs ih =>
    have hc : c ≠ '%' := fun e => h (by rw [e]; exact List.mem_cons_self _ _)
    rw [List.cons_append, fmtRun_cons _ _ hc,
      ih (fun m => h (List.mem_cons_of_mem c m)), List.cons_append]

lemma buildURL_eq (user : String) :
    buildURL user = "https://api.github.com/users/" ++ user := by
  apply String.ext
  show fmtRun ("https://api.github.com/users/%s" : String).data [.s user] =
    ("https://api.github.com/users/" ++ user).data
  have hdec : ("https://api.github.com/users/%s" : String).data =
      ("https://api.github.com/users/" : String).data ++ ('%' :: 's' :: []) := by decide
  rw [hdec, fmtRun_lit _ _ _ (by decide), fmtRun_s, String.data_append]
  simp [fmtRun]

lemma profileOutput_eq (u : GitHubUser) :
    profileOutput u = "Usuário: " ++ u.login ++ "\nNome: " ++ u.name ++ "\nSeguidores: " ++
      toString u.followers ++ "\nSeguindo: " ++ toString u.following ++ "\n" := by
  apply String.ext
  show fmtRun ("Usuário: %s\nNome: %s\nSeguidores: %d\nSeguindo: %d\n" : String).data
      [.s u.login, .s u.name, .d u.followers, .d u.following] = _
  have hdec : ("Usuário: %s\nNome: %s\nSeguidores: %d\nSeguindo: %d\n" : String).data =
      ("Usuário: " : String).data ++ ('%' :: 's' ::
        (("\nNome: " : String).data ++ ('%' :: 's' ::
          (("\nSeguidores: " : String).data ++ ('%' :: 'd' ::
            (("\nSeguindo: " : String).data ++ ('%' :: 'd' ::
              ("\n" : String).data))))))) := by decide
  rw [hdec, fmtRun_lit _ _ _ (by decide), fmtRun_s, fmtRun_lit _ _ _ (by decide), fmtRun_s,
    fmtRun_lit _ _ _ (by decide), fmtRun_d, fmtRun_lit _ _ _ (by decide), fmtRun_d]
  have hnl : fmtRun ("\n" : String).data [] = ("\n" : String).data := rfl
  rw [hnl]
  simp [String.data_append, List.append_assoc]

lemma assignField_field_eq {u u' : GitHubUser} {k : String} {v : Json}
    (h : assignField u k v = .ok u') :
    (keyMatches k "login" = false → u'.login = u.login) ∧
    (keyMatches k "name" = false → u'.name = u.name) ∧
    (keyMatches k "followers" = false → u'.followers = u.followers) ∧
    (keyMatches k "following" = false → u'.following = u.following) := by
  unfold assignField at h
  by_cases h1 : keyMatches k "login" = true
  · rw [if_pos h1] at h
    cases v with
    | str s =>
      rw [Except.ok.injEq] at h
      subst h
      exact ⟨fun hf => absurd h1 (by simp [hf]), fun _ => rfl, fun _ => rfl, fun _ => rfl⟩
    | null =>
      rw [Except.ok.injEq] at h
      subst h
      exact ⟨fun _ => rfl, fun _ => rfl, fun _ => rfl, fun _ => rfl⟩
    | bool b => exact absurd h (by simp)
    | num n => exact absurd h (by simp)
    | arr l => exact absurd h (by simp)
    | obj f => exact absurd h (by simp)
  · rw [if_neg h1] at h
    by_cases h2 : keyMatches k "name" = true
    · rw [if_pos h2] at h
      cases v with
      | str s =>
        rw [Except.ok.injEq] at h
        subst h
        exact ⟨fun _ => rfl, fun hf => absurd h2 (by simp [hf]), fun _ => rfl, fun _ => rfl⟩
      | null =>
        rw [Except.ok.injEq] at h
        subst h
        exact ⟨fun _ => rfl, fun _ => rfl, fun _ => rfl, fun _ => rfl⟩
      | bool b => exact absurd h (by simp)
      | num n => exact absurd h (by simp)
      | arr l => exact absurd h (by simp)
      | obj f => exact absurd h (by simp)
    · rw [if_neg h2] at h
      by_cases h3 : keyMatches k "followers" = true
      · rw [if_pos h3] at h
        cases v with
        | num n =>
          rw [Except.ok.injEq] at h
          subst h
          exact ⟨fun _ => rfl, fun _ => rfl, fun hf => absurd h3 (by simp [hf]), fun _ => rfl⟩
        | null =>
          rw [Except.ok.injEq] at h
          subst h
          exact ⟨fun _ => rfl, fun _ => rfl, fun _ => rfl, fun _ => rfl⟩
        | bool b => exact absurd h (by simp)
        | str s => exact absurd h (by simp)
        | arr l => exact absurd h (by simp)
        | obj f => exact absurd h (by simp)
      · rw [if_neg h3] at h
        by_cases h4 : keyMatches k "following" = true
        · rw [if_pos h4] at h
          cases v with
          | num n =>
            rw [Except.ok.injEq] at h
            subst h
            exact ⟨fun _ => rfl, fun _ => rfl, fun _ => rfl, fun hf => absurd h4 (by simp [hf])⟩
          | null =>
            rw [Except.ok.injEq] at h
            subst h
            exact ⟨fun _ => rfl, fun _ => rfl, fun _ => rfl, fun _ => rfl⟩
          | bool b => exact absurd h (by simp)
          | str s => exact absurd h (by simp)
          | arr l => exact absurd h (by simp)
          | obj f => exact absurd h (by simp)
        · rw [if_neg h4] at h
          rw [Except.ok.injEq] at h
          subst h
          exact ⟨fun _ => rfl, fun _ => rfl, fun _ => rfl, fun _ => rfl⟩

lemma decodeFields_preserves : ∀ (fields : List (String × Json)) (u u' : GitHubUser),
    decodeFields u fields = .ok u' →
    ((∀ kv ∈ fields, keyMatches kv.1 "login" = false) → u'.login = u.login) ∧
    ((∀ kv ∈ fields, keyMatches kv.1 "name" = false) → u'.name = u.name) ∧
    ((∀ kv ∈ fields, keyMatches kv.1 "followers" = false) → u'.followers = u.followers) ∧
    ((∀ kv ∈ fields, keyMatches kv.1 "following" = false) → u'.following = u.following)
  | [], u, u', h => by
    simp only [decodeFields, Except.ok.injEq] at h
    subst h
    exact ⟨fun _ => rfl, fun _ => rfl, fun _ => rfl, fun _ => rfl⟩
  | (k, v) :: rest, u, u', h => by
    cases ha : assignField u k v with
    | error e =>
      simp only [decodeFields, ha] at h
      exact absurd h (by simp)
    | ok u1 =>
      simp only [decodeFields, ha] at h
      obtain ⟨l1, n1, f1, g1⟩ := decodeFields_preserves rest u1 u' h
      obtain ⟨al, an, af, ag⟩ := assignField_field_eq ha
      refine ⟨fun hall => ?_, fun hall => ?_, fun hall => ?_, fun hall => ?_⟩
      · rw [l1 (fun kv hm => hall kv (List.mem_cons_of_mem _ hm)),
          al (hall (k, v) (List.mem_cons_self _ _))]
      · rw [n1 (fun kv hm => hall kv (List.mem_cons_of_mem _ hm)),
          an (hall (k, v) (List.mem_cons_self _ _))]
      · rw [f1 (fun kv hm => hall kv (List.mem_cons_of_mem _ hm)),
          af (hall (k, v) (List.mem_cons_self _ _))]
      · rw [g1 (fun kv hm => hall kv (List.mem_cons_of_mem _ hm)),
          ag (hall (k, v) (List.mem_cons_self _ _))]

/-- A key that matches one of the four `json:` tags of `GitHubUser`
(under the decoder's case-insensitive comparison). -/
def isKnownKey (k : String) : Bool :=
  keyMatches k "login" || keyMatches k "name" ||
  keyMatches k "followers" || keyMatches k "following"

lemma assignField_unknown {k : String} (u : GitHubUser) (v : Json)
    (h : isKnownKey k = false) : assignField u k v = .ok u := by
  simp only [isKnownKey, Bool.or_eq_false_iff] at h
  obtain ⟨⟨⟨h1, h2⟩, h3⟩, h4⟩ := h
  unfold assignField
  rw [if_neg (by simp [h1]), if_neg (by simp [h2]), if_neg (by simp [h3]),
    if_neg (by simp [h4])]

lemma decodeFields_filter : ∀ (fields : List (String × Json)) (u : GitHubUser),
    decodeFields u (fields.filter (fun kv => isKnownKey kv.1)) = decodeFields u fields
  | [], _ => rfl
  | (k, v) :: rest, u => by
    by_cases hk : isKnownKey k = true
    · rw [List.filter_cons_of_pos (by simpa using hk)]
      cases ha : assignField u k v with
      | error e => simp only [decodeFields, ha]
      | ok u1 =>
        simp only [decodeFields, ha]
        exact decodeFields_filter rest u1
    · have hk' : isKnownKey k = false := by simpa using hk
      rw [List.filter_cons_of_neg (by simpa using hk')]
      have hstep : decodeFields u ((k, v) :: rest) = decodeFields u rest := by
        simp only [decodeFields, assignField_unknown u v hk']
      rw [hstep]
      exact decodeFields_filter rest u

/-! ## The claims -/

/-- C1 counterexample: with the flag absent the process exits 1 without
calling the lookup, but nothing is written to standard error — the
missing-user message is printed with `fmt.Println`, which writes to
standard output.  This refutes "writes a message to standard error". -/
theorem claim1_counterexample :
    (runRoot none (fun _ => none) (fun _ => HttpResult.transportError "refused")).exitCode
      = some 1 ∧
    (runRoot none (fun _ => none) (fun _ => HttpResult.transportError "refused")).getUserArg
      = none ∧
    (runRoot none (fun _ => none) (fun _ => HttpResult.transportError "refused")).stderr
      = "" ∧
    (runRoot none (fun _ => none) (fun _ => HttpResult.transportError "refused")).stdout
      ≠ "" :=
  ⟨rfl, rfl, rfl, by decide⟩

/-- C1 (amended): for every invocation in which the user option is
absent or the empty string, the CLI entry writes the message to
standard *output*, terminates the process with exit code 1, and the
lookup function is never called (no network request is made). -/
theorem claim1_missing_user_exits (flagUser : Option String) (env : EnvMap)
    (stub : HttpStub) (h : getStringFlag flagUser = "") :
    runRoot flagUser env stub =
      { stdout := "É necessário informar um usuário com -u ou --user\n"
        stderr := ""
        exitCode := some 1
        getUserArg := none
        getUserStdout := "" } := by
  simp [runRoot, h]

/-- Witness for C1 at the concrete input of an absent flag. -/
theorem claim1_missing_user_exits_witness :
    getStringFlag none = "" ∧
    runRoot none (fun _ => none) (fun _ => HttpResult.response "") =
      { stdout := "É necessário informar um usuário com -u ou --user\n"
        stderr := ""
        exitCode := some 1
        getUserArg := none
        getUserStdout := "" } :=
  ⟨rfl, claim1_missing_user_exits none (fun _ => none) (fun _ => HttpResult.response "") rfl⟩

/-- C2: the run result never depends on the environment
(`viper.AutomaticEnv()` is called but no value is ever read through
viper), so with `--user` absent and the equivalent environment
variable set the process still exits 1 and the lookup is never
called — the claimed fallback does not exist in the code. -/
theorem claim2_env_never_consulted :
    (∀ stub : HttpStub,
      (runRoot none (fun v => if v = "USER" then some "facebook" else none) stub).exitCode
          = some 1 ∧
      (runRoot none (fun v => if v = "USER" then some "facebook" else none) stub).getUserArg
          = none) ∧
    (∀ (flag : Option String) (env1 env2 : EnvMap) (stub : HttpStub),
      runRoot flag env1 stub = runRoot flag env2 stub) :=
  ⟨fun _ => ⟨rfl, rfl⟩, fun _ _ _ _ => rfl⟩

/-- C3 counterexample: for "a/b" (and "a b") the code's URL keeps the
special character verbatim where the spec's path-encoding yields
%2F (resp. %20); the built URL is not the path-encoded one. -/
theorem claim3_counterexample :
    buildURL "a/b" = "https://api.github.com/users/a/b" ∧
    specEncodedURL "a/b" = "https://api.github.com/users/a%2Fb" ∧
    buildURL "a/b" ≠ specEncodedURL "a/b" ∧
    buildURL "a b" = "https://api.github.com/users/a b" ∧
    buildURL "a b" ≠ specEncodedURL "a b" :=
  ⟨by decide, by decide, by decide, by decide, by decide⟩

/-- C3 (amended): for every identifier, the lookup builds the request
URL as the fixed base followed by the identifier *verbatim*
(`fmt.Sprintf` performs no percent-encoding of any character). -/
theorem claim3_url_is_base_plus_identifier (user : String) :
    buildURL user = "https://api.github.com/users/" ++ user :=
  buildURL_eq user

/-- C4: on successful decode the lookup prints exactly the four fixed
lines `Usuário:`, `Nome:`, `Seguidores:`, `Seguindo:`; for identifier
"facebook" with the stub response
`{"login":"facebook","name":"Facebook","followers":0,"following":0}`
the output is exactly those four lines with those values. -/
theorem claim4_output_format :
    (∀ (stub : HttpStub) (user body : String) (u : GitHubUser),
      stub (buildURL user) = HttpResult.response body →
      decodeBody body = .ok u →
      (GetUser stub user).stdout =
        "Usuário: " ++ u.login ++ "\nNome: " ++ u.name ++ "\nSeguidores: " ++
          toString u.followers ++ "\nSeguindo: " ++ toString u.following ++ "\n") ∧
    (GetUser (fun _ => HttpResult.response
        "\x7b\"login\":\"facebook\",\"name\":\"Facebook\",\"followers\":0,\"following\":0\x7d")
      "facebook").stdout =
      "Usuário: facebook\nNome: Facebook\nSeguidores: 0\nSeguindo: 0\n" := by
  constructor
  · intro stub user body u hs hd
    have hg : GetUser stub user =
        { stdout := profileOutput u, responseObtained := true, bodyClosed := true } := by
      simp only [GetUser, hs, hd]
    rw [hg]
    exact profileOutput_eq u
  · rfl

/-- Witness for C4's universal part at the facebook stub. -/
theorem claim4_output_format_witness :
    (GetUser (fun _ => HttpResult.response
        "\x7b\"login\":\"facebook\",\"name\":\"Facebook\",\"followers\":0,\"following\":0\x7d")
      "facebook").stdout =
      "Usuário: " ++ "facebook" ++ "\nNome: " ++ "Facebook" ++ "\nSeguidores: " ++
        toString (0 : Int) ++ "\nSeguindo: " ++ toString (0 : Int) ++ "\n" :=
  claim4_output_format.1
    (fun _ => HttpResult.response
      "\x7b\"login\":\"facebook\",\"name\":\"Facebook\",\"followers\":0,\"following\":0\x7d")
    "facebook"
    "\x7b\"login\":\"facebook\",\"name\":\"Facebook\",\"followers\":0,\"following\":0\x7d"
    { login := "facebook", name := "Facebook", followers := 0, following := 0 }
    rfl rfl

/-- C5: on transport failure the lookup prints the fetch-error line and
returns; on decode failure it prints the decode-error line and
returns; in both cases `Run` returns normally, so the process exits 0
from the caller's perspective (no `os.Exit`, no panic). -/
theorem claim5_error_recovery :
    (∀ (stub : HttpStub) (user e : String),
      stub (buildURL user) = HttpResult.transportError e →
      (GetUser stub user).stdout = "Erro ao buscar o usuário: " ++ e ++ "\n") ∧
    (∀ (stub : HttpStub) (user body e : String),
      stub (buildURL user) = HttpResult.response body →
      decodeBody body = .error e →
      (GetUser stub user).stdout = "Erro ao decodificar resposta: " ++ e ++ "\n") ∧
    (∀ (env : EnvMap) (stub : HttpStub) (user : String), user ≠ "" →
      (runRoot (some user) env stub).exitCode = none) := by
  refine ⟨?_, ?_, ?_⟩
  · intro stub user e hs
    simp [GetUser, hs]
  · intro stub user body e hs hd
    simp [GetUser, hs, hd]
  · intro env stub user h
    simp [runRoot, getStringFlag, h]

/-- Witness for C5 at concrete transport and decode failures. -/
theorem claim5_error_recovery_witness :
    (GetUser (fun _ => HttpResult.transportError "connection refused") "x").stdout =
      "Erro ao buscar o usuário: " ++ "connection refused" ++ "\n" ∧
    (GetUser (fun _ => HttpResult.response "not json") "x").stdout =
      "Erro ao decodificar resposta: " ++ "unexpected end of JSON input" ++ "\n" ∧
    (runRoot (some "x") (fun _ => none) (fun _ => HttpResult.response "null")).exitCode
      = none :=
  ⟨claim5_error_recovery.1 (fun _ => HttpResult.transportError "connection refused") "x"
      "connection refused" rfl,
   claim5_error_recovery.2.1 (fun _ => HttpResult.response "not json") "x" "not json"
      "unexpected end of JSON input" rfl rfl,
   claim5_error_recovery.2.2 (fun _ => none) (fun _ => HttpResult.response "null") "x"
      (by decide)⟩

/-- C6 counterexample: the object `{"LOGIN":"x"}` has no member named
`login` (its only key is `LOGIN`), yet decoding sets the login field to
"x" — `encoding/json` matches field names case-insensitively — so an
absent `login` member does not leave the field at its zero value, and
the extra field `LOGIN` is not ignored. -/
theorem claim6_counterexample :
    decodeValue (Json.obj [("LOGIN", Json.str "x")]) =
      .ok { login := "x", name := "", followers := 0, following := 0 } ∧
    [("LOGIN", Json.str "x")].map Prod.fst = ["LOGIN"] ∧
    "login" ∉ ["LOGIN"] ∧
    ("x" : String) ≠ "" :=
  ⟨rfl, rfl, by decide, by decide⟩

/-- C6 (amended): in a successfully decoded object, a field whose key
is absent under the decoder's (case-insensitive) field matching keeps
its zero value, and members whose keys match no field
case-insensitively are ignored without affecting the result. -/
theorem claim6_decode_defaults :
    (∀ (fields : List (String × Json)) (u : GitHubUser),
      decodeValue (Json.obj fields) = .ok u →
      ((∀ kv ∈ fields, keyMatches kv.1 "login" = false) → u.login = "") ∧
      ((∀ kv ∈ fields, keyMatches kv.1 "name" = false) → u.name = "") ∧
      ((∀ kv ∈ fields, keyMatches kv.1 "followers" = false) → u.followers = 0) ∧
      ((∀ kv ∈ fields, keyMatches kv.1 "following" = false) → u.following = 0)) ∧
    (∀ fields : List (String × Json),
      decodeValue (Json.obj (fields.filter (fun kv => isKnownKey kv.1))) =
        decodeValue (Json.obj fields)) := by
  constructor
  · intro fields u h
    exact decodeFields_preserves fields GitHubUser.zero u h
  · intro fields
    exact decodeFields_filter fields GitHubUser.zero

/-- Witness for C6 at an object with one unknown member. -/
theorem claim6_decode_defaults_witness :
    decodeValue (Json.obj [("extra", Json.num 5)]) = .ok GitHubUser.zero ∧
    GitHubUser.zero.login = "" :=
  ⟨rfl,
   (claim6_decode_defaults.1 [("extra", Json.num 5)] GitHubUser.zero rfl).1
     (fun kv hm => by
       rw [List.mem_singleton] at hm
       subst hm
       rfl)⟩

/-- C7: on every exit path of `GetUser` on which a response was
obtained (successful print and decode failure alike), the deferred
`resp.Body.Close()` has run before the function returns. -/
theorem claim7_body_closed (stub : HttpStub) (user : String)
    (h : (GetUser stub user).responseObtained = true) :
    (GetUser stub user).bodyClosed = true := by
  cases hs : stub (buildURL user) with
  | transportError e => simp [GetUser, hs] at h
  | response body =>
    cases hd : decodeBody body with
    | error e => simp [GetUser, hs, hd]
    | ok u => simp [GetUser, hs, hd]

/-- Witness for C7 on a decode-failure path. -/
theorem claim7_body_closed_witness :
    (GetUser (fun _ => HttpResult.response "not json") "x").responseObtained = true ∧
    (GetUser (fun _ => HttpResult.response "not json") "x").bodyClosed = true :=
  ⟨rfl, claim7_body_closed (fun _ => HttpResult.response "not json") "x" rfl⟩

/-- C8: `GetUser` is deterministic and stateless: its entire observable
behaviour is a function of the identifier and of the stubbed response
for the one URL it requests, so two invocations with the same
identifier and the same stubbed response produce identical output. -/
theorem claim8_deterministic (stub₁ stub₂ : HttpStub) (user : String)
    (h : stub₁ (buildURL user) = stub₂ (buildURL user)) :
    GetUser stub₁ user = GetUser stub₂ user := by
  simp only [GetUser, h]

/-- Witness for C8 with two different stubs agreeing on the one URL. -/
theorem claim8_deterministic_witness :
    GetUser (fun _ => HttpResult.response "null") "octocat" =
      GetUser (fun u => if u = "" then HttpResult.transportError "x"
        else HttpResult.response "null") "octocat" :=
  claim8_deterministic (fun _ => HttpResult.response "null")
    (fun u => if u = "" then HttpResult.transportError "x" else HttpResult.response "null")
    "octocat" (by decide)

/-- C9: the emptiness check is an exact comparison with "": every
non-empty flag value — whitespace-only included — passes the check and
is forwarded to `GetUser` completely unchanged, and the run returns
normally. -/
theorem claim9_exact_empty_check (env : EnvMap) (stub : HttpStub) (user : String)
    (h : user ≠ "") :
    (runRoot (some user) env stub).getUserArg = some user ∧
    (runRoot (some user) env stub).exitCode = none := by
  constructor <;> simp [runRoot, getStringFlag, h]

/-- Witness for C9 at the whitespace-only value " ". -/
theorem claim9_exact_empty_check_witness :
    (" " : String) ≠ "" ∧
    (runRoot (some " ") (fun _ => none) (fun _ => HttpResult.response "null")).getUserArg
      = some " " ∧
    (runRoot (some " ") (fun _ => none) (fun _ => HttpResult.response "null")).exitCode
      = none :=
  ⟨by decide,
   (claim9_exact_empty_check (fun _ => none) (fun _ => HttpResult.response "null") " "
     (by decide)).1,
   (claim9_exact_empty_check (fun _ => none) (fun _ => HttpResult.response "null") " "
     (by decide)).2⟩

/-- C10 counterexample: "null" is one complete JSON value (the scanner
consumes it exactly), yet the body "null" ++ "x" — that value followed
by a trailing byte — fails to decode: the decoder does examine the
byte following a top-level primitive.  This refutes "trailing bytes
are never examined" for bodies whose value is not an object/array. -/
theorem claim10_counterexample :
    scanVal (("null" : String).data.length + 1) ("null" : String).data =
      some (Json.null, []) ∧
    decodeBody ("null" ++ "x") = .error "invalid character after top-level value" ∧
    (GetUser (fun _ => HttpResult.response ("null" ++ "x")) "u").stdout =
      "Erro ao decodificar resposta: " ++ "invalid character after top-level value" ++ "\n" :=
  ⟨rfl, rfl, rfl⟩

/-- C10 (amended): a body consisting of one complete JSON *object*
decodes identically with arbitrary trailing bytes appended (the
decoder stops at the closing brace and never examines them), and the
body `null` decodes successfully into the all-zero record, which the
lookup prints as a success. -/
theorem claim10_trailing_bytes :
    (∀ (b t : String) (fs : List (String × Json)) (u : GitHubUser),
      scanVal (b.data.length + 1) b.data = some (Json.obj fs, []) →
      decodeBody b = .ok u →
      decodeBody (b ++ t) = .ok u) ∧
    decodeBody "null" = .ok GitHubUser.zero ∧
    (∀ (stub : HttpStub) (user : String),
      stub (buildURL user) = HttpResult.response "null" →
      (GetUser stub user).stdout = "Usuário: \nNome: \nSeguidores: 0\nSeguindo: 0\n") := by
  refine ⟨?_, rfl, ?_⟩
  · intro b t fs u hscan hdec
    have hdata : (b ++ t).data = b.data ++ t.data := String.data_append b t
    have hle : b.data.length + 1 ≤ (b.data ++ t.data).length + 1 := by
      simp [List.length_append]
    have happ := (scan_append_mono (b.data.length + 1) ((b.data ++ t.data).length + 1)
        hle).1 b.data t.data (Json.obj fs) [] hscan (Or.inl rfl)
    unfold decodeBody at hdec ⊢
    rw [hscan] at hdec
    simp only [selfDelim] at hdec
    rw [hdata, happ]
    simp only [selfDelim]
    exact hdec
  · intro stub user hs
    have hd : decodeBody "null" = .ok GitHubUser.zero := rfl
    simp only [GetUser, hs, hd]
    rfl

/-- Witness for C10's universal part: a one-member object body with
trailing garbage. -/
theorem claim10_trailing_bytes_witness :
    decodeBody ("\x7b\"login\":\"a\"\x7d" ++ "garbage") =
      .ok { login := "a", name := "", followers := 0, following := 0 } :=
  claim10_trailing_bytes.1 "\x7b\"login\":\"a\"\x7d" "garbage" [("login", Json.str "a")]
    { login := "a", name := "", followers := 0, following := 0 } rfl rfl
